import Mathlib

/-!
Verification model of PatchPeek (a GitHub release dashboard).

The embedding below is a shallow model of `server.mjs` (the variant with the
etag cache, `cleanCache` and `processFeed`; the paginated fetcher of the older
variant is modelled in the `Paginated` namespace).  JavaScript strings are
Lean `String`s, JS `Date` timestamps (`new Date(s).getTime()`, millisecond
epoch values) are `Int`, JS objects used as string-keyed maps are association
lists, and network I/O is modelled by passing the upstream HTTP response in
as data.  Fallible code returns `Except`.
-/

namespace PatchPeek

/-- A GitHub release object, as consumed by the server.  `published_at` is the
millisecond epoch timestamp that `new Date(r.published_at).getTime()` yields;
`name` is `""` when the JSON field is null/absent (JS falsy).  `body` is the
raw markdown body, `body_html` the pre-rendered body used by the older
paginated fetcher.  `flagged` models the `r.flagged` property the paginated
fetcher adds to each release it accumulates (absent, i.e. `false`, on fresh
data). -/
structure Release where
  id : Nat
  name : String
  tag_name : String
  published_at : Int
  body : String
  body_html : String
  draft : Bool
  prerelease : Bool
  flagged : Bool
deriving DecidableEq, Repr

/-- One per-repo cache entry: `{ etag, releases, rendered }`.  `rendered` is a
JS object keyed by strings: either `String(release.id)` mapping to the
rendered HTML, or `"promise_" ++ String(release.id)` marking an in-flight
render (the promise value itself is irrelevant to the claims and is modelled
as a string). -/
structure CacheEntry where
  etag : Option String
  releases : List Release
  rendered : List (String × String)
deriving DecidableEq, Repr

/-- The module-level `cache` object: repo slug → entry. -/
abbrev Cache := List (String × CacheEntry)

/-- JS `hay.includes needle` on char lists: `needle` occurs contiguously. -/
def containsSub (needle : List Char) : List Char → Bool
  | [] => needle.isEmpty
  | c :: rest => List.isPrefixOf needle (c :: rest) || containsSub needle rest

/-- JS `s.toLowerCase()` (char-wise lowering suffices for the ASCII keyword
matching done by the server). -/
def lowerChars (s : String) : List Char := s.data.map Char.toLower

/-- The `keywords` constant of `server.mjs`. -/
def keywords : List String :=
  ["breaking change", "breaking changes", "caution", "important"]

/-- `hasWarning`: `keywords.some((kw) => text.toLowerCase().includes(kw))`. -/
def hasWarning (text : String) : Bool :=
  keywords.any fun kw => containsSub kw.data (lowerChars text)

/-- `isValidRelease(r, cutoff)`: not draft, not prerelease, published on or
after the cutoff timestamp. -/
def isValidRelease (r : Release) (cutoff : Int) : Bool :=
  !r.draft && !r.prerelease && decide (cutoff ≤ r.published_at)

/-- `filterRecentReleases(releases, cutoff)`. -/
def filterRecentReleases (releases : List Release) (cutoff : Int) : List Release :=
  releases.filter fun r => isValidRelease r cutoff

/-- `cache[repo]` (association-list lookup). -/
def lookupCache (c : Cache) (repo : String) : Option CacheEntry :=
  c.lookup repo

/-- JS `Number(key)` restricted to the shapes that can meet the id set in
`cleanCache`: a non-empty decimal digit string parses to the corresponding
natural number, anything else does not (JS would give `NaN`, never a release
id; `Number("")` is `0` in JS, a corner also kept here). -/
def jsNumberKey (s : String) : Option Nat :=
  if s.data = [] then some 0
  else if s.data.all fun c => '0' ≤ c && c ≤ '9' then
    some (s.data.foldl (fun n c => n * 10 + (c.toNat - 48)) 0)
  else none

/-- The per-entry body of `cleanCache`'s second loop: keep only releases with
`published_at >= cutoff`; from `rendered`, skip `promise_` keys and delete
every key whose numeric value is not among the surviving release ids. -/
def cleanEntry (cutoff : Int) (e : CacheEntry) : CacheEntry :=
  let recent := e.releases.filter fun r => decide (cutoff ≤ r.published_at)
  let recentIds := recent.map Release.id
  { etag := e.etag
    releases := recent
    rendered := e.rendered.filter fun kv =>
      List.isPrefixOf "promise_".data kv.1.data
        || (jsNumberKey kv.1).elim false recentIds.contains }

/-- `cleanCache(feeds, cutoff)`: the first loop deletes every cache key not in
`feeds`; the second loop visits each repo of `feeds` present in the cache —
i.e. exactly the entries surviving the first loop — and prunes it with
`cleanEntry`. -/
def cleanCache (feeds : List String) (cutoff : Int) (c : Cache) : Cache :=
  (c.filter fun kv => feeds.contains kv.1).map fun kv => (kv.1, cleanEntry cutoff kv.2)

/-- The parts of an upstream HTTP response that `fetchReleasesWithCache`
inspects: the status, the `x-ratelimit-remaining` / `x-ratelimit-reset` /
`etag` headers (absent headers are `none`), and the parsed JSON body. -/
structure HttpResponse where
  status : Nat
  ratelimitRemaining : Option String
  ratelimitReset : Option Int
  etag : Option String
  body : List Release
deriving DecidableEq, Repr

/-- `res.ok` of the fetch API: status in the 2xx range. -/
def resOk (res : HttpResponse) : Bool :=
  200 ≤ res.status && res.status ≤ 299

/-- The ways `fetchReleasesWithCache` can throw: the tagged `rateLimited`
error carrying `resetEpoch`; the generic ``Error(`${status} fetching ${url}`)``
carrying only the status; or the TypeError a 304 raises when `cache[repo]` is
undefined (reading `.releases` of undefined). -/
inductive FetchError where
  | rateLimited (resetEpoch : Int)
  | httpError (status : Nat)
  | cacheMiss
deriving DecidableEq, Repr

/-- Constructor tag of a `FetchError`: two errors are distinguishable as
different *kinds* by a caller exactly when their tags differ (a caller
matching on the thrown error sees the constructor, as `processFeed` does with
`err.rateLimited`). -/
def FetchError.tag : FetchError → Nat
  | .rateLimited _ => 0
  | .httpError _ => 1
  | .cacheMiss => 2

/-- The `If-None-Match` header `fetchReleasesWithCache` sends: present with
the cached etag only when `force` is false and `cache[repo]?.etag` is set
(the Authorization header does not influence any claim and is omitted). -/
def ifNoneMatchHeader (repo : String) (force : Bool) (c : Cache) : Option String :=
  if force then none
  else match lookupCache c repo with
    | some e => e.etag
    | none => none

/-- `cache[repo] = entry` (replace the key if present, else add it). -/
def setCache (c : Cache) (repo : String) (e : CacheEntry) : Cache :=
  if c.any fun kv => kv.1 = repo then
    c.map fun kv => if kv.1 = repo then (repo, e) else kv
  else c ++ [(repo, e)]

/-- `fetchReleasesWithCache(repo, githubToken, force)`, with the network
modelled by passing the response `res` in and the mutable `cache` threaded
explicitly.  Mirrors the source order: a 304 returns the cached release list
untouched (a TypeError if there is no cache entry); a 403 with
`x-ratelimit-remaining === "0"` throws the tagged rate-limit error with
`resetEpoch = Number(reset ?? 0) * 1000`; any other non-ok status throws the
generic error; otherwise the entry is replaced (preserving `rendered`) and
the fresh body returned. -/
def fetchReleasesWithCache (repo : String) (force : Bool) (c : Cache)
    (res : HttpResponse) : Except FetchError (List Release × Cache) :=
  if res.status = 304 then
    match lookupCache c repo with
    | some e => .ok (e.releases, c)
    | none => .error .cacheMiss
  else if res.status = 403 && res.ratelimitRemaining = some "0" then
    .error (.rateLimited ((res.ratelimitReset.getD 0) * 1000))
  else if !resOk res then
    .error (.httpError res.status)
  else
    let rendered := ((lookupCache c repo).map CacheEntry.rendered).getD []
    .ok (res.body, setCache c repo { etag := res.etag, releases := res.body, rendered })

/-- What the markdown endpoint did for one render request. -/
inductive RenderResp where
  | ok (html : String)
  | failStatus (status : Nat)
deriving DecidableEq, Repr

/-- One JS global single-char `replace(/c/g, rep)` pass, char-wise. -/
def replaceChar (c : Char) (rep : List Char) : List Char → List Char
  | [] => []
  | x :: xs => (if x = c then rep else [x]) ++ replaceChar c rep xs

/-- The fallback escaping of `renderMd`:
`md.replace(/&/g, "&amp;").replace(/</g, "&lt;").replace(/>/g, "&gt;")`. -/
def escapeHtml (md : String) : String :=
  ⟨replaceChar '>' "&gt;".data
    (replaceChar '<' "&lt;".data
      (replaceChar '&' "&amp;".data md.data))⟩

/-- `renderMd(md, repo, githubToken)`: empty markdown returns `""` without
calling the API; otherwise the call is made (second component `true`) and a
non-ok response falls back to the escaped raw text in a `<pre>` block.  The
returned `Bool` records whether a rendering request was issued. -/
def renderMd (md : String) (resp : RenderResp) : String × Bool :=
  if md = "" then ("", false)
  else match resp with
    | .ok html => (html, true)
    | .failStatus _ => ("<pre>" ++ escapeHtml md ++ "</pre>", true)

/-- JS `a || b` on strings: `b` when `a` is falsy (empty), else `a`. -/
def jsOr (a b : String) : String := if a = "" then b else a

/-- `rendered[r.id] || ""`: the association-list value under key
`String(id)`, defaulting to the empty string. -/
def renderedAt (rendered : List (String × String)) (id : Nat) : String :=
  (rendered.lookup (toString id)).getD ""

/-- `rendered[k] = v` on a string-keyed JS object. -/
def setAssoc (m : List (String × String)) (k v : String) : List (String × String) :=
  if m.any fun kv => kv.1 = k then m.map fun kv => if kv.1 = k then (k, v) else kv
  else m ++ [(k, v)]

/-- `cache[repo]?.rendered ?? {}`. -/
def renderedOf (c : Cache) (repo : String) : List (String × String) :=
  ((lookupCache c repo).map CacheEntry.rendered).getD []

/-- `cache[repo]?.releases || []`. -/
def releasesOf (c : Cache) (repo : String) : List Release :=
  ((lookupCache c repo).map CacheEntry.releases).getD []

/-- One displayed release row `{ title, date, html, flagged }`.  `date` models
`r.published_at.slice(0, 10)`; since the model carries the timestamp rather
than the ISO string, the timestamp itself stands in for its date prefix. -/
structure DisplayRelease where
  title : String
  date : Int
  html : String
  flagged : Bool
deriving DecidableEq, Repr

/-- The release row `processFeed` builds:
`{ title: r.name || r.tag_name, date, html: cache[repo].rendered?.[r.id] || "", flagged: hasWarning(r.body) }`. -/
def toDisplayProcess (rendered : List (String × String)) (r : Release) : DisplayRelease :=
  { title := jsOr r.name r.tag_name
    date := r.published_at
    html := renderedAt rendered r.id
    flagged := hasWarning r.body }

/-- The release row the `/` route builds; a missing or empty rendered entry
falls back to the loading placeholder. -/
def toDisplayRoute (rendered : List (String × String)) (r : Release) : DisplayRelease :=
  { title := jsOr r.name r.tag_name
    date := r.published_at
    html := jsOr (renderedAt rendered r.id) "<i>Loading...</i>"
    flagged := hasWarning r.body }

/-- Per-repo outcome of `processFeed`: the success record `{project, releases}`,
the rate-limit placeholder `{project: "Failed → repo", rateLimited: true,
resetEpoch}`, or the generic failure placeholder `{project: "Failed → repo",
releases: []}`. -/
inductive FeedResult where
  | success (project : String) (releases : List DisplayRelease)
  | rateLimitedResult (project : String) (resetEpoch : Int)
  | failedResult (project : String)
deriving DecidableEq, Repr

/-- The `result.rateLimited` truthiness test of `updateAllFeeds`. -/
def FeedResult.isRateLimited : FeedResult → Bool
  | .rateLimitedResult _ _ => true
  | _ => false

/-- Net effect of `getRenderedReleaseHtml` storing a finished render:
`cache[repo].rendered[r.id] = html` (the transient `promise_` key it adds and
deletes around the await cancels out in this sequential model). -/
def addRendered (c : Cache) (repo : String) (id : Nat) (html : String) : Cache :=
  match lookupCache c repo with
  | some e => setCache c repo { e with rendered := setAssoc e.rendered (toString id) html }
  | none => c

/-- Render every release of `rs` in turn and store the HTML (the render
backend is modelled as a function from markdown text to a `RenderResp`). -/
def renderAll (repo : String) (renderEnv : String → RenderResp) (rs : List Release)
    (c : Cache) : Cache :=
  rs.foldl (fun acc r => addRendered acc repo r.id (renderMd r.body (renderEnv r.body)).1) c

/-- `processFeed(repo, cutoff, githubToken, force)`: fetch (with the upstream
response `res` as data), keep the valid releases, render the ones without a
truthy cached HTML, and build the result rows; the catch block turns a
rate-limited error into the tagged placeholder and every other error into the
generic placeholder — no error escapes. -/
def processFeed (repo : String) (cutoff : Int) (force : Bool)
    (renderEnv : String → RenderResp) (res : HttpResponse) (c : Cache) :
    FeedResult × Cache :=
  match fetchReleasesWithCache repo force c res with
  | .ok (releases, c1) =>
      let recent := releases.filter fun r => isValidRelease r cutoff
      let toRender := recent.filter fun r => renderedAt (renderedOf c1 repo) r.id = ""
      let c2 := renderAll repo renderEnv toRender c1
      (.success repo (recent.map fun r => toDisplayProcess (renderedOf c2 repo) r), c2)
  | .error (.rateLimited reset) => (.rateLimitedResult ("Failed → " ++ repo) reset, c)
  | .error _ => (.failedResult ("Failed → " ++ repo), c)

/-- The per-repo loop of `updateAllFeeds`, threading the cache (each repo only
touches its own cache key, so the concurrent `Promise.all` is modelled
sequentially). -/
def updateFold (cutoff : Int) (force : Bool) (renderEnv : String → RenderResp)
    (env : String → HttpResponse) : List String → Cache → List FeedResult × Cache
  | [], c => ([], c)
  | repo :: rest, c =>
      let (r, c1) := processFeed repo cutoff force renderEnv (env repo) c
      let (rs, c2) := updateFold cutoff force renderEnv env rest c1
      (r :: rs, c2)

/-- `updateAllFeeds(force)`: process every configured feed, set the global
`rateLimitHit` flag from the results, then `cleanCache(feeds, cutoff)`.
Returns (results, cache after cleaning, rateLimitHit). -/
def updateAllFeeds (feeds : List String) (cutoff : Int) (force : Bool)
    (renderEnv : String → RenderResp) (env : String → HttpResponse) (c : Cache) :
    List FeedResult × Cache × Bool :=
  let (results, c1) := updateFold cutoff force renderEnv env feeds c
  (results, cleanCache feeds cutoff c1, results.any FeedResult.isRateLimited)

/-- The per-repo view object the `/` route builds from the cache. -/
structure Feed where
  project : String
  releases : List DisplayRelease
  releaseCount : Nat
  breakingCount : Nat
deriving DecidableEq, Repr

/-- The `feedData.map` body of the `/` route. -/
def buildRepoFeed (c : Cache) (cutoff : Int) (repo : String) : Feed :=
  let display := ((filterRecentReleases (releasesOf c repo) cutoff).map
      (toDisplayRoute (renderedOf c repo))).filter fun d => d.html ≠ ""
  { project := repo
    releases := display
    releaseCount := display.length
    breakingCount := (display.filter fun d => d.flagged).length }

/-- `feedData`: one view object per configured feed. -/
def buildFeedData (c : Cache) (cutoff : Int) (feeds : List String) : List Feed :=
  feeds.map (buildRepoFeed c cutoff)

/-- The order the route's comparator
`(a, b) => b.breakingCount === a.breakingCount ? b.releaseCount - a.releaseCount : b.breakingCount - a.breakingCount`
establishes: `a` may precede `b` exactly when the comparator is ≤ 0, i.e.
higher breaking count first, ties broken by higher release count. -/
def feedLe (a b : Feed) : Prop :=
  b.breakingCount < a.breakingCount
    ∨ (a.breakingCount = b.breakingCount ∧ b.releaseCount ≤ a.releaseCount)

instance : DecidableRel feedLe := fun a b => by unfold feedLe; infer_instance

instance : IsTotal Feed feedLe where
  total a b := by unfold feedLe; omega

instance : IsTrans Feed feedLe where
  trans a b c := by unfold feedLe; omega

/-- `feedsWithReleases`: drop empty feeds, then sort with the comparator.  JS
`Array.prototype.sort` is a stable comparison sort; it is modelled by
insertion sort over the comparator's order. -/
def feedsWithReleases (c : Cache) (cutoff : Int) (feeds : List String) : List Feed :=
  List.insertionSort feedLe ((buildFeedData c cutoff feeds).filter fun f => 0 < f.releaseCount)

/-- The order `views/index.ejs` displays one feed's releases in:
`[...releases.filter(flagged), ...releases.filter(not flagged)]`. -/
def displayedReleases (f : Feed) : List DisplayRelease :=
  (f.releases.filter fun r => r.flagged) ++ (f.releases.filter fun r => !r.flagged)

namespace Paginated

/-- The flag mutation the paginated fetcher applies before accumulating:
`r.flagged = keywords.some((kw) => (r.body_html || "").toLowerCase().includes(kw))`. -/
def withFlag (r : Release) : Release := { r with flagged := hasWarning r.body_html }

/-- The draft/prerelease filter (`continue`) of the page loop. -/
def keepRelease (r : Release) : Bool := !r.draft && !r.prerelease

/-- The inner `for (const r of releases)` loop of the paginated
`fetchReleases`: drafts and prereleases are skipped, a release older than the
cutoff stops the whole fetch (second component `true`), anything else is
flagged and accumulated. -/
def scanPage (cutoff : Int) : List Release → List Release → List Release × Bool
  | [], acc => (acc, false)
  | r :: rs, acc =>
      if r.draft || r.prerelease then scanPage cutoff rs acc
      else if r.published_at < cutoff then (acc, true)
      else scanPage cutoff rs (acc ++ [withFlag r])

/-- The `for (let page = 1; ; page++)` loop: an empty page breaks, a too-old
release returns the accumulator, otherwise the next page is requested.
`pages` is the upstream page sequence; past its end the API returns empty
pages, so the loop stops there as well. -/
def fetchPagesGo (cutoff : Int) : List (List Release) → List Release → List Release
  | [], acc => acc
  | page :: rest, acc =>
      if page.isEmpty then acc
      else
        match scanPage cutoff page acc with
        | (acc1, true) => acc1
        | (acc1, false) => fetchPagesGo cutoff rest acc1

/-- `fetchReleases(repo, daysWindow)` of the paginated variant, restricted to
successful page responses (its 403/404/error early exits are separate paths
outside this claim's loop). -/
def fetchReleases (cutoff : Int) (pages : List (List Release)) : List Release :=
  fetchPagesGo cutoff pages []

end Paginated

/-! Concrete fixtures used to instantiate the theorems below on sample data. -/

/-- A valid release whose body mentions a breaking change. -/
def wr1 : Release :=
  { id := 1, name := "v1.0", tag_name := "v1.0.0", published_at := 100
    body := "Has a BREAKING CHANGE inside", body_html := "", draft := false
    prerelease := false, flagged := false }

/-- A valid release with an unflagged body and a falsy (null) name. -/
def wr2 : Release :=
  { id := 2, name := "", tag_name := "v0.9.0", published_at := 50
    body := "routine fixes", body_html := "", draft := false
    prerelease := false, flagged := false }

/-- A release published before the sample cutoff. -/
def wrOld : Release :=
  { id := 3, name := "v0.1", tag_name := "v0.1.0", published_at := -10
    body := "ancient", body_html := "", draft := false
    prerelease := false, flagged := false }

/-- A sample cache entry holding the three releases above, two completed
renders and one in-flight render handle. -/
def wEntry : CacheEntry :=
  { etag := some "W/abc"
    releases := [wr1, wr2, wrOld]
    rendered := [("1", "<p>one</p>"), ("3", "<p>three</p>"), ("promise_2", "pending")] }

/-- A one-repo sample cache. -/
def wCache : Cache := [("acme/widget", wEntry)]

/-- A not-modified upstream response. -/
def wResp304 : HttpResponse :=
  { status := 304, ratelimitRemaining := some "41", ratelimitReset := none
    etag := none, body := [] }

/-- A not-found upstream response. -/
def wResp404 : HttpResponse :=
  { status := 404, ratelimitRemaining := some "41", ratelimitReset := none
    etag := none, body := [] }

/-- A server-error upstream response. -/
def wResp500 : HttpResponse :=
  { status := 500, ratelimitRemaining := some "41", ratelimitReset := none
    etag := none, body := [] }

/-- A rate-limit-exhausted upstream response. -/
def wRespRL : HttpResponse :=
  { status := 403, ratelimitRemaining := some "0", ratelimitReset := some 777
    etag := none, body := [] }

/-- A successful listing response carrying the sample releases. -/
def wResp200 : HttpResponse :=
  { status := 200, ratelimitRemaining := some "1", ratelimitReset := none
    etag := some "W/new", body := [wr1, wr2, wrOld] }

/-- A markdown backend that succeeds on every request. -/
def wRenderEnv : String → RenderResp := fun s => .ok ("<p>" ++ s ++ "</p>")

/-- A rate-limit-exhausted listing response carrying a reset time. -/
def rlResponse (reset : Int) : HttpResponse :=
  { status := 403, ratelimitRemaining := some "0", ratelimitReset := some reset
    etag := none, body := [] }

/-- A successful listing response with the given etag and releases. -/
def okResponse (etag : Option String) (releases : List Release) : HttpResponse :=
  { status := 200, ratelimitRemaining := some "1", ratelimitReset := none
    etag := etag, body := releases }

/-- A sample upstream where `beta/b` succeeds and every other repo is
rate-limited. -/
def wEnv : String → HttpResponse :=
  fun repo => if repo = "beta/b" then wResp200 else wRespRL

/-! ## Helper lemmas -/

theorem containsSub_nil_needle (l : List Char) : containsSub [] l = true := by
  cases l <;> simp [containsSub, List.isPrefixOf]

theorem isPrefixOf_append_self (l t : List Char) : List.isPrefixOf l (l ++ t) = true := by
  induction l with
  | nil => simp [List.isPrefixOf]
  | cons c cs ih => simp [List.isPrefixOf, ih]

theorem containsSub_surround (needle pre suf : List Char) :
    containsSub needle (pre ++ needle ++ suf) = true := by
  induction pre with
  | nil =>
      simp only [List.nil_append]
      cases hn : needle with
      | nil => exact containsSub_nil_needle suf
      | cons n ns =>
          rw [List.cons_append]
          show (List.isPrefixOf (n :: ns) (n :: (ns ++ suf)) || _) = true
          rw [← List.cons_append, ← hn, isPrefixOf_append_self, Bool.true_or]
  | cons c cs ih =>
      rw [List.cons_append, List.cons_append]
      show (_ || containsSub needle (cs ++ needle ++ suf)) = true
      rw [List.append_assoc] at ih ⊢
      rw [ih, Bool.or_true]

theorem filter_self_idem {α : Type} (p : α → Bool) (l : List α) :
    (l.filter p).filter p = l.filter p :=
  List.filter_eq_self.mpr fun _ ha => (List.mem_filter.mp ha).2

/-! ## Claim theorems -/

/-- C7: a release body containing "Breaking Change" in any letter case has
`hasWarning` (the value stored in `flagged`) equal to `true`, and a body
containing none of the four keywords case-insensitively has it `false`. -/
theorem hasWarning_keywords (text : String) :
    ((∃ pre mid suf : List Char, text.data = pre ++ mid ++ suf ∧
        mid.map Char.toLower = "breaking change".data) → hasWarning text = true)
    ∧ ((∀ kw ∈ keywords, containsSub kw.data (lowerChars text) = false) →
        hasWarning text = false) := by
  constructor
  · rintro ⟨pre, mid, suf, hsplit, hlow⟩
    unfold hasWarning
    refine List.any_eq_true.mpr ⟨"breaking change", by simp [keywords], ?_⟩
    unfold lowerChars
    rw [hsplit, List.map_append, List.map_append, ← hlow]
    exact containsSub_surround _ _ _
  · intro h
    unfold hasWarning
    refine List.any_eq_false.mpr fun kw hkw => ?_
    simp [h kw hkw]

/-- C7 witness: a body with "BREAKING Change" is flagged, a keyword-free body
is not. -/
theorem hasWarning_keywords_witness :
    hasWarning "Note the BREAKING Change: renamed API" = true
    ∧ hasWarning "just routine fixes" = false :=
  ⟨(hasWarning_keywords "Note the BREAKING Change: renamed API").1
      ⟨"Note the ".data, "BREAKING Change".data, ": renamed API".data, by decide, by decide⟩,
    (hasWarning_keywords "just routine fixes").2 (by decide)⟩

/-- C9: the body renderer returns `""` for empty input without issuing a
request, and on a failed rendering request returns the escaped raw text in a
`<pre>` block (it never throws — `renderMd` is total). -/
theorem renderMd_empty_and_fallback :
    (∀ resp, renderMd "" resp = ("", false))
    ∧ (∀ md status, md ≠ "" →
        renderMd md (.failStatus status) = ("<pre>" ++ escapeHtml md ++ "</pre>", true)) := by
  constructor
  · intro resp; simp [renderMd]
  · intro md status h; simp [renderMd, h]

/-- C9 witness: empty input with a healthy backend, and a failing backend on
`"a<b"`. -/
theorem renderMd_empty_and_fallback_witness :
    renderMd "" (.ok "<p>hi</p>") = ("", false)
    ∧ renderMd "a<b" (.failStatus 500) = ("<pre>a&lt;b</pre>", true) := by
  refine ⟨renderMd_empty_and_fallback.1 _, ?_⟩
  rw [renderMd_empty_and_fallback.2 "a<b" 500 (by decide)]
  decide

theorem cleanEntry_idem (cutoff : Int) (e : CacheEntry) :
    cleanEntry cutoff (cleanEntry cutoff e) = cleanEntry cutoff e := by
  unfold cleanEntry
  simp only [filter_self_idem]

/-- C2: `cleanCache` is idempotent — running it twice with the same feed list
and cutoff leaves exactly the cache state of running it once. -/
theorem cleanCache_idempotent (feeds : List String) (cutoff : Int) (c : Cache) :
    cleanCache feeds cutoff (cleanCache feeds cutoff c) = cleanCache feeds cutoff c := by
  unfold cleanCache
  rw [List.filter_eq_self.mpr, List.map_map]
  · refine List.map_congr_left fun kv _ => ?_
    simp [Function.comp, cleanEntry_idem]
  · intro kv hkv
    rcases List.mem_map.mp hkv with ⟨kv0, hkv0, rfl⟩
    exact (List.mem_filter.mp hkv0).2

/-- C3: a 304 reply to a non-forced fetch returns the previously cached
release list with the cache left untouched, and a forced fetch sends no
`If-None-Match` header at all. -/
theorem fetch_conditional_304_and_force :
    (∀ repo (c : Cache) e res, lookupCache c repo = some e → res.status = 304 →
        fetchReleasesWithCache repo false c res = Except.ok (e.releases, c))
    ∧ (∀ repo (c : Cache), ifNoneMatchHeader repo true c = none) := by
  constructor
  · intro repo c e res hl hs
    unfold fetchReleasesWithCache
    rw [if_pos hs, hl]
  · intro repo c
    unfold ifNoneMatchHeader
    simp

/-- C3 witness: the sample cache and a 304 response. -/
theorem fetch_conditional_304_and_force_witness :
    fetchReleasesWithCache "acme/widget" false wCache wResp304
        = Except.ok (wEntry.releases, wCache)
    ∧ ifNoneMatchHeader "acme/widget" true wCache = none :=
  ⟨fetch_conditional_304_and_force.1 "acme/widget" wCache wEntry wResp304 rfl rfl,
    fetch_conditional_304_and_force.2 "acme/widget" wCache⟩

/-- C5 counterexample: a 404 reply does not yield a distinct
"repository not found" error — it yields the generic fetch failure, the same
error kind (constructor) as any other non-success status such as 500. -/
theorem fetch_404_generic_counterexample :
    fetchReleasesWithCache "acme/widget" false [] wResp404
        = Except.error (.httpError 404)
    ∧ fetchReleasesWithCache "acme/widget" false [] wResp500
        = Except.error (.httpError 500)
    ∧ FetchError.tag (.httpError 404) = FetchError.tag (.httpError 500) :=
  ⟨rfl, rfl, rfl⟩

/-- C5 amended: the fetch distinguishes exactly two failure kinds — a
rate-limit-exhausted response (403 with remaining "0") throws the tagged
rate-limited error carrying the reset time, and every other non-success,
404 included, throws the generic fetch failure carrying only the status;
the two kinds are distinguishable by the caller, while 404 is told apart
from other generic failures only by the carried status code. -/
theorem fetch_error_kinds (repo : String) (c : Cache) (res : HttpResponse) :
    (res.status = 403 → res.ratelimitRemaining = some "0" →
        fetchReleasesWithCache repo false c res
          = Except.error (.rateLimited ((res.ratelimitReset.getD 0) * 1000)))
    ∧ (res.status ≠ 304 → ¬(res.status = 403 ∧ res.ratelimitRemaining = some "0") →
        resOk res = false →
        fetchReleasesWithCache repo false c res = Except.error (.httpError res.status))
    ∧ (∀ t s, FetchError.tag (.rateLimited t) ≠ FetchError.tag (.httpError s)) := by
  refine ⟨?_, ?_, fun t s => by simp [FetchError.tag]⟩
  · intro h403 hrem
    unfold fetchReleasesWithCache
    rw [if_neg (by omega), if_pos (by simp [h403, hrem])]
  · intro h304 hnrl hok
    unfold fetchReleasesWithCache
    rw [if_neg h304, if_neg (by simpa using hnrl), if_pos (by simp [hok])]

/-- C5 amended witness: the rate-limited, 404 and 500 sample responses. -/
theorem fetch_error_kinds_witness :
    fetchReleasesWithCache "acme/widget" false [] wRespRL
        = Except.error (.rateLimited 777000)
    ∧ fetchReleasesWithCache "acme/widget" false [] wResp404
        = Except.error (.httpError 404)
    ∧ FetchError.tag (.rateLimited 777000) ≠ FetchError.tag (.httpError 404) :=
  ⟨(fetch_error_kinds "acme/widget" [] wRespRL).1 rfl rfl,
    (fetch_error_kinds "acme/widget" [] wResp404).2.1 (by decide) (by decide) (by decide),
    (fetch_error_kinds "acme/widget" [] wResp404).2.2 777000 404⟩

theorem lookupCache_cleanCache (feeds : List String) (cutoff : Int) (c : Cache)
    (repo : String) :
    lookupCache (cleanCache feeds cutoff c) repo =
      if feeds.contains repo then (lookupCache c repo).map (cleanEntry cutoff) else none := by
  unfold cleanCache lookupCache
  induction c with
  | nil => simp [List.lookup]
  | cons hd tl ih =>
      obtain ⟨k0, e0⟩ := hd
      by_cases hr : repo = k0
      · subst hr
        by_cases hm : repo ∈ feeds
        · have hc : feeds.contains repo = true := List.elem_eq_true_of_mem hm
          rw [List.filter_cons_of_pos (by simpa using hm), List.map_cons, hc]
          simp [List.lookup]
        · have hc : feeds.contains repo = false := by
            cases hv : feeds.contains repo
            · rfl
            · exact absurd (List.mem_of_elem_eq_true hv) hm
          rw [List.filter_cons_of_neg (by simpa using hm), ih, hc]
          simp
      · have hne : (repo == k0) = false := beq_eq_false_iff_ne.mpr hr
        by_cases hm : k0 ∈ feeds
        · rw [List.filter_cons_of_pos (by simpa using hm), List.map_cons]
          simp only [List.lookup, hne]
          rw [ih]
        · rw [List.filter_cons_of_neg (by simpa using hm), ih]
          simp only [List.lookup, hne]

/-- C10 counterexample: `cleanCache` does remove an in-flight `promise_` key
when its repo has been removed from the feeds list — the whole entry is
deleted, the promise handle with it. -/
theorem cleanCache_promise_removed_counterexample :
    (renderedOf wCache "acme/widget").lookup "promise_2" = some "pending"
    ∧ cleanCache [] 0 wCache = []
    ∧ (renderedOf (cleanCache [] 0 wCache) "acme/widget").lookup "promise_2" = none := by
  decide

/-- C10 amended: for every repo still present in the feeds list, every key of
its rendered map starting with "promise_" survives `cleanCache` (with its
value), even when the corresponding release was dropped; only completed
renders of out-of-window releases are deleted. -/
theorem cleanCache_preserves_promises_in_feeds
    (feeds : List String) (cutoff : Int) (c : Cache) (repo : String)
    (e : CacheEntry) (k v : String)
    (hfeeds : feeds.contains repo = true)
    (hlook : lookupCache c repo = some e)
    (hmem : (k, v) ∈ e.rendered)
    (hpre : List.isPrefixOf "promise_".data k.data = true) :
    ∃ e2, lookupCache (cleanCache feeds cutoff c) repo = some e2
      ∧ (k, v) ∈ e2.rendered := by
  refine ⟨cleanEntry cutoff e, ?_, ?_⟩
  · rw [lookupCache_cleanCache, if_pos hfeeds, hlook]
    rfl
  · unfold cleanEntry
    exact List.mem_filter.mpr ⟨hmem, by simp [hpre]⟩

/-- C10 amended witness: the sample cache, pruned with its repo kept, retains
the in-flight `promise_2` handle. -/
theorem cleanCache_preserves_promises_in_feeds_witness :
    ∃ e2, lookupCache (cleanCache ["acme/widget"] 0 wCache) "acme/widget" = some e2
      ∧ ("promise_2", "pending") ∈ e2.rendered :=
  cleanCache_preserves_promises_in_feeds ["acme/widget"] 0 wCache "acme/widget"
    wEntry "promise_2" "pending" (by decide) rfl (by decide) (by decide)

/-- C8: the route's repo list is sorted by the comparator's order — higher
`breakingCount` first, ties broken by higher `releaseCount` — and within each
repo the template displays every flagged release before every unflagged
one. -/
theorem display_sort_order (c : Cache) (cutoff : Int) (feeds : List String) :
    List.Sorted feedLe (feedsWithReleases c cutoff feeds)
    ∧ ∀ f : Feed, List.Pairwise (fun a b => b.flagged = true → a.flagged = true)
        (displayedReleases f) := by
  constructor
  · exact List.sorted_insertionSort feedLe _
  · intro f
    unfold displayedReleases
    rw [List.pairwise_append]
    refine ⟨?_, ?_, ?_⟩
    · refine List.pairwise_of_forall_mem_list fun a ha b _ => fun _ => ?_
      simpa using (List.mem_filter.mp ha).2
    · refine List.pairwise_of_forall_mem_list fun a _ b hb => fun hbf => ?_
      have := (List.mem_filter.mp hb).2
      rw [hbf] at this
      simp at this
    · intro a ha b _ _
      simpa using (List.mem_filter.mp ha).2

theorem takeWhile_append_all {α : Type} (p : α → Bool) (l1 l2 : List α)
    (h : l1.all p = true) : (l1 ++ l2).takeWhile p = l1 ++ l2.takeWhile p := by
  induction l1 with
  | nil => simp
  | cons x xs ih =>
      simp only [List.all_cons, Bool.and_eq_true] at h
      simp [List.takeWhile_cons, h.1, ih h.2]

theorem takeWhile_all_eq {α : Type} (p : α → Bool) (l : List α)
    (h : l.all p = true) : l.takeWhile p = l := by
  induction l with
  | nil => rfl
  | cons x xs ih =>
      simp only [List.all_cons, Bool.and_eq_true] at h
      simp [List.takeWhile_cons, h.1, ih h.2]

theorem takeWhile_append_stop {α : Type} (p : α → Bool) (l1 l2 : List α)
    (h : l1.all p = false) : (l1 ++ l2).takeWhile p = l1.takeWhile p := by
  induction l1 with
  | nil => simp at h
  | cons x xs ih =>
      by_cases hx : p x = true
      · simp only [List.all_cons, hx, Bool.true_and] at h
        simp [List.takeWhile_cons, hx, ih h]
      · have hx2 : p x = false := by revert hx; cases p x <;> simp
        simp [List.takeWhile_cons, hx2]

theorem scanPage_eq (cutoff : Int) (page acc : List Release) :
    Paginated.scanPage cutoff page acc =
      (acc ++ (((page.filter Paginated.keepRelease).takeWhile
          fun r => decide (cutoff ≤ r.published_at)).map Paginated.withFlag),
        !((page.filter Paginated.keepRelease).all fun r => decide (cutoff ≤ r.published_at))) := by
  induction page generalizing acc with
  | nil => simp [Paginated.scanPage]
  | cons r rs ih =>
      by_cases hd : (r.draft || r.prerelease) = true
      · have hk : Paginated.keepRelease r = false := by
          unfold Paginated.keepRelease
          revert hd; cases r.draft <;> cases r.prerelease <;> simp
        rw [Paginated.scanPage, if_pos hd, List.filter_cons_of_neg (by simp [hk])]
        exact ih acc
      · have hd2 : (r.draft || r.prerelease) = false := by
          revert hd; cases hv : (r.draft || r.prerelease) <;> simp
        have hk : Paginated.keepRelease r = true := by
          unfold Paginated.keepRelease
          revert hd2; cases r.draft <;> cases r.prerelease <;> simp
        by_cases hold : r.published_at < cutoff
        · have hno : decide (cutoff ≤ r.published_at) = false := by
            simp only [decide_eq_false_iff_not]; omega
          rw [Paginated.scanPage, if_neg (by simp [hd2]), if_pos hold,
            List.filter_cons_of_pos (by simp [hk])]
          simp [List.takeWhile_cons, hno]
        · have hyes : decide (cutoff ≤ r.published_at) = true := by
            simp only [decide_eq_true_eq]; omega
          rw [Paginated.scanPage, if_neg (by simp [hd2]), if_neg hold,
            List.filter_cons_of_pos (by simp [hk]), ih]
          simp [List.takeWhile_cons, hyes]

theorem fetchPagesGo_eq (cutoff : Int) (pages : List (List Release)) (acc : List Release) :
    Paginated.fetchPagesGo cutoff pages acc =
      acc ++ ((((pages.takeWhile fun p => !p.isEmpty).flatten.filter
          Paginated.keepRelease).takeWhile
          fun r => decide (cutoff ≤ r.published_at)).map Paginated.withFlag) := by
  induction pages generalizing acc with
  | nil => simp [Paginated.fetchPagesGo]
  | cons page rest ih =>
      by_cases hemp : page.isEmpty = true
      · rw [Paginated.fetchPagesGo, if_pos hemp]
        simp [List.takeWhile_cons, hemp]
      · have hemp2 : page.isEmpty = false := by
          revert hemp; cases page.isEmpty <;> simp
        rw [Paginated.fetchPagesGo, if_neg (by simp [hemp2]), scanPage_eq]
        by_cases hstop : ((page.filter Paginated.keepRelease).all
            fun r => decide (cutoff ≤ r.published_at)) = true
        · rw [hstop]
          show Paginated.fetchPagesGo cutoff rest _ = _
          rw [ih]
          rw [List.takeWhile_cons, if_pos (by simp [hemp2]), List.flatten_cons,
            List.filter_append, takeWhile_append_all _ _ _ hstop, List.map_append,
            List.append_assoc, takeWhile_all_eq _ _ hstop]
        · have hstop2 : ((page.filter Paginated.keepRelease).all
              fun r => decide (cutoff ≤ r.published_at)) = false := by
            revert hstop
            cases hv : ((page.filter Paginated.keepRelease).all
              fun r => decide (cutoff ≤ r.published_at)) <;> simp
          rw [hstop2]
          show acc ++ _ = _
          rw [List.takeWhile_cons, if_pos (by simp [hemp2]), List.flatten_cons,
            List.filter_append, takeWhile_append_stop _ _ _ hstop2]

/-- C6: the paginated fetch returns exactly the non-draft, non-prerelease
releases of the successive pages up to (not beyond) the first empty page,
truncated at the first too-old release — each with its keyword flag set —
i.e. it stops exactly at an empty page or at the first release older than the
cutoff, returning everything accumulated before that point. -/
theorem fetchReleases_pagination (cutoff : Int) (pages : List (List Release)) :
    Paginated.fetchReleases cutoff pages =
      ((((pages.takeWhile fun p => !p.isEmpty).flatten.filter
          Paginated.keepRelease).takeWhile
          fun r => decide (cutoff ≤ r.published_at)).map Paginated.withFlag) := by
  unfold Paginated.fetchReleases
  simpa using fetchPagesGo_eq cutoff pages []

/-- C1: every release row shown on the page — built by the `/` route with
cutoff `now - daysWindow` days — comes from a cached release that is neither
a draft nor a prerelease and whose `published_at` is at least
`now - daysWindow` days. -/
theorem displayed_release_within_window
    (c : Cache) (feeds : List String) (now daysWindow : Int) (f : Feed) (d : DisplayRelease)
    (hf : f ∈ feedsWithReleases c (now - daysWindow * 86400000) feeds)
    (hd : d ∈ f.releases) :
    ∃ r : Release, r ∈ releasesOf c f.project
      ∧ r.draft = false ∧ r.prerelease = false
      ∧ now - daysWindow * 86400000 ≤ r.published_at
      ∧ d = toDisplayRoute (renderedOf c f.project) r := by
  unfold feedsWithReleases at hf
  rw [List.mem_insertionSort] at hf
  have hf2 := (List.mem_filter.mp hf).1
  unfold buildFeedData at hf2
  rcases List.mem_map.mp hf2 with ⟨repo, _, rfl⟩
  simp only [buildRepoFeed] at hd ⊢
  have hd2 := (List.mem_filter.mp hd).1
  rcases List.mem_map.mp hd2 with ⟨r, hrmem, rfl⟩
  unfold filterRecentReleases at hrmem
  have hrel := (List.mem_filter.mp hrmem).1
  have hvalid := (List.mem_filter.mp hrmem).2
  unfold isValidRelease at hvalid
  simp only [Bool.and_eq_true, Bool.not_eq_true', decide_eq_true_eq] at hvalid
  exact ⟨r, hrel, hvalid.1.1, hvalid.1.2, hvalid.2, rfl⟩

/-- C1 witness: the sample cache viewed with a one-day window. -/
theorem displayed_release_within_window_witness :
    ∃ r : Release, r ∈ releasesOf wCache "acme/widget"
      ∧ r.draft = false ∧ r.prerelease = false
      ∧ (86400000 : Int) - 1 * 86400000 ≤ r.published_at
      ∧ toDisplayRoute (renderedOf wCache "acme/widget") wr1
          = toDisplayRoute (renderedOf wCache "acme/widget") r :=
  displayed_release_within_window wCache ["acme/widget"] 86400000 1
    (buildRepoFeed wCache (86400000 - 1 * 86400000) "acme/widget")
    (toDisplayRoute (renderedOf wCache "acme/widget") wr1)
    (by decide) (by decide)

theorem lookup_map_subst_self (c : Cache) (repo : String) (e : CacheEntry)
    (h : (c.any fun kv => decide (kv.1 = repo)) = true) :
    List.lookup repo (c.map fun kv => if kv.1 = repo then (repo, e) else kv) = some e := by
  induction c with
  | nil => simp at h
  | cons hd tl ih =>
      obtain ⟨k0, e0⟩ := hd
      by_cases hk : k0 = repo
      · subst hk
        simp only [List.map_cons]
        rw [if_pos trivial]
        simp [List.lookup]
      · have h2 : (tl.any fun kv => decide (kv.1 = repo)) = true := by
          simpa [List.any_cons, hk] using h
        simp only [List.map_cons]
        rw [if_neg hk]
        simp only [List.lookup, beq_eq_false_iff_ne.mpr (Ne.symm hk)]
        exact ih h2

theorem lookup_append_single_self (c : Cache) (repo : String) (e : CacheEntry)
    (h : (c.any fun kv => decide (kv.1 = repo)) = false) :
    List.lookup repo (c ++ [(repo, e)]) = some e := by
  induction c with
  | nil => simp [List.lookup]
  | cons hd tl ih =>
      obtain ⟨k0, e0⟩ := hd
      have hk : ¬(k0 = repo) := by
        intro heq
        rw [List.any_cons] at h
        simp [heq] at h
      have h2 : (tl.any fun kv => decide (kv.1 = repo)) = false := by
        simpa [List.any_cons, hk] using h
      simp only [List.cons_append, List.lookup, beq_eq_false_iff_ne.mpr (Ne.symm hk)]
      exact ih h2

theorem lookup_setCache_self (c : Cache) (repo : String) (e : CacheEntry) :
    lookupCache (setCache c repo e) repo = some e := by
  unfold setCache lookupCache
  by_cases h : (c.any fun kv => decide (kv.1 = repo)) = true
  · rw [if_pos h]
    exact lookup_map_subst_self c repo e h
  · rw [if_neg h]
    refine lookup_append_single_self c repo e ?_
    revert h
    cases c.any fun kv => decide (kv.1 = repo) <;> simp

theorem lookup_map_subst_ne (c : Cache) (repo x : String) (e : CacheEntry) (hx : x ≠ repo) :
    List.lookup x (c.map fun kv => if kv.1 = repo then (repo, e) else kv)
      = List.lookup x c := by
  induction c with
  | nil => rfl
  | cons hd tl ih =>
      obtain ⟨k0, e0⟩ := hd
      by_cases hk : k0 = repo
      · subst hk
        simp only [List.map_cons]
        rw [if_pos trivial]
        simp only [List.lookup, beq_eq_false_iff_ne.mpr hx]
        exact ih
      · simp only [List.map_cons]
        rw [if_neg hk]
        by_cases hxk : x = k0
        · simp [List.lookup, hxk]
        · simp only [List.lookup, beq_eq_false_iff_ne.mpr hxk]
          exact ih

theorem lookup_append_single_ne (c : Cache) (repo x : String) (e : CacheEntry)
    (hx : x ≠ repo) :
    List.lookup x (c ++ [(repo, e)]) = List.lookup x c := by
  induction c with
  | nil => simp [List.lookup, beq_eq_false_iff_ne.mpr hx]
  | cons hd tl ih =>
      obtain ⟨k0, e0⟩ := hd
      by_cases hxk : x = k0
      · simp [List.lookup, hxk]
      · simp only [List.cons_append, List.lookup, beq_eq_false_iff_ne.mpr hxk]
        exact ih

theorem lookup_setCache_ne (c : Cache) (repo x : String) (e : CacheEntry) (hx : x ≠ repo) :
    lookupCache (setCache c repo e) x = lookupCache c x := by
  unfold setCache lookupCache
  by_cases h : (c.any fun kv => decide (kv.1 = repo)) = true
  · rw [if_pos h]
    exact lookup_map_subst_ne c repo x e hx
  · rw [if_neg h]
    exact lookup_append_single_ne c repo x e hx

theorem lookup_addRendered_releases (c : Cache) (repo x : String) (id : Nat) (html : String) :
    Option.map CacheEntry.releases (lookupCache (addRendered c repo id html) x)
      = Option.map CacheEntry.releases (lookupCache c x) := by
  unfold addRendered
  cases hl : lookupCache c repo with
  | none => rfl
  | some e =>
      by_cases hx : x = repo
      · subst hx
        rw [lookup_setCache_self, hl]
        rfl
      · rw [lookup_setCache_ne _ _ _ _ hx]

theorem lookup_renderAll_releases (repo : String) (renderEnv : String → RenderResp)
    (rs : List Release) (c : Cache) (x : String) :
    Option.map CacheEntry.releases (lookupCache (renderAll repo renderEnv rs c) x)
      = Option.map CacheEntry.releases (lookupCache c x) := by
  unfold renderAll
  induction rs generalizing c with
  | nil => rfl
  | cons r rest ih =>
      rw [List.foldl_cons, ih]
      exact lookup_addRendered_releases c repo x r.id _

theorem fetch_okResponse_eq (repo : String) (force : Bool) (c : Cache)
    (etag : Option String) (lB : List Release) :
    fetchReleasesWithCache repo force c (okResponse etag lB)
      = .ok (lB, setCache c repo
          { etag := etag, releases := lB, rendered := renderedOf c repo }) := by
  rfl

theorem processFeed_rlResponse (repo : String) (cutoff : Int) (force : Bool)
    (renderEnv : String → RenderResp) (reset : Int) (c : Cache) :
    processFeed repo cutoff force renderEnv (rlResponse reset) c
      = (.rateLimitedResult ("Failed → " ++ repo) (reset * 1000), c) := by
  rfl

theorem filterRecent_absorb (lB : List Release) (cutoff : Int) :
    filterRecentReleases (lB.filter fun r => decide (cutoff ≤ r.published_at)) cutoff
      = filterRecentReleases lB cutoff := by
  unfold filterRecentReleases
  rw [List.filter_filter]
  refine List.filter_congr fun r _ => ?_
  unfold isValidRelease
  cases r.draft <;> cases r.prerelease <;> cases hle : decide (cutoff ≤ r.published_at) <;>
    simp [hle]

/-- C4: in one refresh pass where repo A's fetch is rate-limited and repo B's
succeeds, no error escapes (`processFeed` totalizes both failures into
placeholder results), the refresh completes with the global rate-limit flag
set, B's result row is a success carrying B's processed releases, and the
post-refresh cache still holds B's releases — the page view built from that
cache shows exactly B's valid releases. -/
theorem rateLimit_isolation
    (A B : String) (cutoff reset : Int) (etagB : Option String)
    (listB : List Release) (force : Bool) (renderEnv : String → RenderResp)
    (env : String → HttpResponse) (c : Cache)
    (hA : env A = rlResponse reset) (hB : env B = okResponse etagB listB) :
    (updateAllFeeds [A, B] cutoff force renderEnv env c).2.2 = true
    ∧ (∃ ds, (updateAllFeeds [A, B] cutoff force renderEnv env c).1
        = [FeedResult.rateLimitedResult ("Failed → " ++ A) (reset * 1000),
           FeedResult.success B ds])
    ∧ (∃ e2, lookupCache (updateAllFeeds [A, B] cutoff force renderEnv env c).2.1 B
          = some e2
        ∧ filterRecentReleases e2.releases cutoff = filterRecentReleases listB cutoff) := by
  have hApf : processFeed A cutoff force renderEnv (env A) c
      = (.rateLimitedResult ("Failed → " ++ A) (reset * 1000), c) := by
    rw [hA]
    exact processFeed_rlResponse A cutoff force renderEnv reset c
  have hBpf : ∃ ds c2, processFeed B cutoff force renderEnv (env B) c = (.success B ds, c2)
      ∧ Option.map CacheEntry.releases (lookupCache c2 B) = some listB := by
    rw [hB]
    unfold processFeed
    rw [fetch_okResponse_eq]
    refine ⟨_, _, rfl, ?_⟩
    rw [lookup_renderAll_releases, lookup_setCache_self]
    rfl
  obtain ⟨ds, c2, hBpf2, hc2rel⟩ := hBpf
  have hfold : updateFold cutoff force renderEnv env [A, B] c
      = ([FeedResult.rateLimitedResult ("Failed → " ++ A) (reset * 1000),
          FeedResult.success B ds], c2) := by
    simp only [updateFold]
    rw [hApf]
    simp only []
    rw [hBpf2]
  have hmain : updateAllFeeds [A, B] cutoff force renderEnv env c
      = ([FeedResult.rateLimitedResult ("Failed → " ++ A) (reset * 1000),
          FeedResult.success B ds],
         cleanCache [A, B] cutoff c2,
         true) := by
    unfold updateAllFeeds
    rw [hfold]
    simp [FeedResult.isRateLimited]
  rw [hmain]
  refine ⟨rfl, ⟨ds, rfl⟩, ?_⟩
  cases hl : lookupCache c2 B with
  | none => rw [hl] at hc2rel; simp at hc2rel
  | some eB2 =>
      rw [hl] at hc2rel
      simp only [Option.map] at hc2rel
      have hrel : eB2.releases = listB := by
        injection hc2rel
      refine ⟨cleanEntry cutoff eB2, ?_, ?_⟩
      · rw [lookupCache_cleanCache,
          if_pos (List.elem_eq_true_of_mem (by simp)), hl]
        rfl
      · show filterRecentReleases (cleanEntry cutoff eB2).releases cutoff = _
        have : (cleanEntry cutoff eB2).releases
            = eB2.releases.filter fun r => decide (cutoff ≤ r.published_at) := rfl
        rw [this, hrel, filterRecent_absorb]

/-- C4 witness: `alpha/a` rate-limited, `beta/b` succeeding with the sample
releases, from an empty cache. -/
theorem rateLimit_isolation_witness :
    (updateAllFeeds ["alpha/a", "beta/b"] 0 false wRenderEnv wEnv []).2.2 = true
    ∧ (∃ ds, (updateAllFeeds ["alpha/a", "beta/b"] 0 false wRenderEnv wEnv []).1
        = [FeedResult.rateLimitedResult ("Failed → " ++ "alpha/a") (777 * 1000),
           FeedResult.success "beta/b" ds])
    ∧ (∃ e2, lookupCache
          (updateAllFeeds ["alpha/a", "beta/b"] 0 false wRenderEnv wEnv []).2.1 "beta/b"
          = some e2
        ∧ filterRecentReleases e2.releases 0
            = filterRecentReleases [wr1, wr2, wrOld] 0) :=
  rateLimit_isolation "alpha/a" "beta/b" 0 777 (some "W/new")
    [wr1, wr2, wrOld] false wRenderEnv wEnv [] (by decide) (by decide)

/-- C2 witness: pruning the sample cache twice equals pruning it once. -/
theorem cleanCache_idempotent_witness :
    cleanCache ["acme/widget"] 0 (cleanCache ["acme/widget"] 0 wCache)
      = cleanCache ["acme/widget"] 0 wCache :=
  cleanCache_idempotent ["acme/widget"] 0 wCache

/-- C6 witness: three sample pages; the too-old release in page two stops the
fetch, so page three is never consumed. -/
theorem fetchReleases_pagination_witness :
    Paginated.fetchReleases 0 [[wr1], [wr2, wrOld], [wr1]] =
      (((([[wr1], [wr2, wrOld], [wr1]].takeWhile
            fun p => !p.isEmpty).flatten.filter Paginated.keepRelease).takeWhile
          fun r => decide ((0 : Int) ≤ r.published_at)).map Paginated.withFlag) :=
  fetchReleases_pagination 0 [[wr1], [wr2, wrOld], [wr1]]

/-- C8 witness: the sample cache's view is sorted and its template rows show
flagged releases first. -/
theorem display_sort_order_witness :
    List.Sorted feedLe (feedsWithReleases wCache 0 ["acme/widget"])
    ∧ ∀ f : Feed, List.Pairwise (fun a b => b.flagged = true → a.flagged = true)
        (displayedReleases f) :=
  display_sort_order wCache 0 ["acme/widget"]

end PatchPeek
